import Mathlib

/-!
Verification of the client-side message broker
(`src/modules/@angular/platform-webworker/src/web_workers/shared/client_message_broker.ts`).

The TypeScript code is shallowly embedded: JavaScript runtime values are the
inductive `JSVal` (with `vNull` and `vUndefined` kept distinct, as JavaScript
distinguishes them), the broker's `Map<string, PromiseCompleter>` is an
insertion-ordered association list with JavaScript `Map` semantics, and promise
completers live in an arena (`List PromiseState`) addressed by `Nat` handles.
Synchronous exceptions (`TypeError` from dereferencing a null serializer) are
modelled with `Except`.
-/

/-- A JavaScript runtime value, restricted to the shapes this module moves
around.  `vNull` and `vUndefined` are distinct, as in JavaScript. -/
inductive JSVal where
  | vNull
  | vUndefined
  | vBool (b : Bool)
  | vNum (n : Int)
  | vStr (s : String)
  deriving Repr, DecidableEq

/-- An opaque token standing for a `Type<any>` class reference used as a
serialization tag. -/
abbrev JSType := Nat

/-- The `Serializer` collaborator (its implementation lives outside this
module): type-directed encode (`serialize`) and decode (`deserialize`). -/
structure Serializer where
  serialize : JSVal → JSType → JSVal
  deserialize : JSVal → JSType → JSVal

/-- `FnArg`: a value paired with an optional type tag (`null` modelled as
`none`). -/
structure FnArg where
  value : JSVal
  type : Option JSType
  deriving Repr, DecidableEq

/-- `UiArguments`: method name plus an optional argument array (the `args?`
constructor parameter may be left `undefined`, modelled as `none`). -/
structure UiArguments where
  method : String
  args : Option (List FnArg)

/-- State of one promise completer. -/
inductive PromiseState where
  | pending
  | resolved (v : JSVal)
  | rejected (e : JSVal)
  deriving Repr, DecidableEq

/-- Broker state: the `_pending` map (request id to completer handle, in
insertion order, as a JavaScript `Map`) plus the completer arena. -/
structure BrokerState where
  pendingTable : List (String × Nat)
  completers : List PromiseState
  deriving Repr, DecidableEq

/-- JavaScript `Map.get`/`Map.has` over the association-list model: the first
entry with the given key wins. -/
def lookupKey (k : String) : List (String × Nat) → Option Nat
  | [] => none
  | (a, b) :: rest => if a = k then some b else lookupKey k rest

/-- JavaScript `Map.delete`: remove the entry with the given key. -/
def deleteKey (k : String) : List (String × Nat) → List (String × Nat)
  | [] => []
  | (a, b) :: rest => if a = k then deleteKey k rest else (a, b) :: deleteKey k rest

/-- JavaScript `Map.set`: overwrite in place when the key exists, otherwise
append at the end. -/
def setKey (k : String) (v : Nat) : List (String × Nat) → List (String × Nat)
  | [] => [(k, v)]
  | (a, b) :: rest => if a = k then (k, v) :: rest else (a, b) :: setKey k v rest

/-- One step of serializing one argument entry, from `runOnService`:
`argument.type != null ? serializer.serialize(argument.value, argument.type)
: argument.value`.  When no serializer object is present and a type tag is,
dereferencing `this._serializer` throws a `TypeError`. -/
def encodeArg (ser : Option Serializer) (a : FnArg) : Except JSVal JSVal :=
  match a.type with
  | some t =>
    match ser with
    | some s => Except.ok (s.serialize a.value t)
    | none => Except.error (JSVal.vStr "TypeError")
  | none => Except.ok a.value

/-- The `args.args.forEach(... fnArgs.push ...)` loop of `runOnService`,
guarded by `if (args.args)`: an absent array yields `[]`; a thrown
serialization error aborts the whole call. -/
def encodeList (ser : Option Serializer) : List FnArg → Except JSVal (List JSVal)
  | [] => Except.ok []
  | a :: rest =>
    match encodeArg ser a with
    | Except.ok v => (encodeList ser rest).map (fun vs => v :: vs)
    | Except.error e => Except.error e

/-- `fnArgs` computation of `runOnService` (the `if (args.args)` guard plus the
`forEach` loop). -/
def encodeArgs (ser : Option Serializer) (args : Option (List FnArg)) :
    Except JSVal (List JSVal) :=
  match args with
  | none => Except.ok []
  | some l => encodeList ser l

/-- The body of `_generateMessageId`'s `while` loop, made explicit with a fuel
parameter; `none` means the fuel ran out before the loop exited.  Note the
faithful quirk of the source: the loop body first recomputes the id from the
*current* `iteration` value and only then increments it, so the first pass
re-checks the same colliding id. -/
def genLoop (pending : List String) (pre : String) :
    Nat → String → Nat → Option String
  | 0, _, _ => none
  | fuel + 1, id, iteration =>
    if id ∈ pending then
      genLoop pending pre fuel (pre ++ Nat.repr iteration) (iteration + 1)
    else
      some id

/-- `_generateMessageId(name)`: `id = name + time + stringify(0)`, then the
collision loop.  `stringify` (from `facade/lang`, outside this module) renders
the timestamp and the counter in decimal, modelled by `Nat.repr`; the ambient
`new Date().getTime()` value is passed in already stringified as `time`.  The
fuel `pending.length + 2` is proved sufficient below
(`genLoop_some_of_fresh` / `exists_fresh_id`). -/
def generateMessageId (pending : List String) (name time : String) : String :=
  (genLoop pending (name ++ time) (pending.length + 2)
      (name ++ time ++ Nat.repr 0) 0).getD (name ++ time)

/-- The outbound wire message `{method, args, id?}`; `id := none` models the
absence of the `id` key. -/
structure OutMessage where
  method : String
  args : List JSVal
  id : Option String
  deriving Repr, DecidableEq

/-- What one `runOnService` call produces: the updated broker state, the
message emitted on the sink, and the returned promise (`none` models the
literal `null` return; `some h` is the completer handle the returned future
is bound to). -/
structure RunResult where
  state : BrokerState
  message : OutMessage
  promise : Option Nat
  deriving Repr, DecidableEq

/-- `ClientMessageBroker_.runOnService(args, returnType)`: serialize the
arguments, then (iff `returnType` is non-null) allocate a completer, generate a
fresh id, insert it into `_pending`, and attach the id to the message; finally
emit `{method, args, id?}`.  An `Except.error` is a synchronous JavaScript
throw. -/
def runOnService (ser : Option Serializer) (st : BrokerState)
    (args : UiArguments) (returnType : Option JSType) (time : String) :
    Except JSVal RunResult :=
  match encodeArgs ser args.args with
  | Except.error e => Except.error e
  | Except.ok fnArgs =>
    match returnType with
    | some _ =>
      let id := generateMessageId (st.pendingTable.map Prod.fst) args.method time
      let h := st.completers.length
      Except.ok
        { state :=
            { pendingTable := setKey id h st.pendingTable,
              completers := st.completers ++ [PromiseState.pending] },
          message := { method := args.method, args := fnArgs, id := some id },
          promise := some h }
    | none =>
      Except.ok
        { state := st,
          message := { method := args.method, args := fnArgs, id := none },
          promise := none }

/-- The result-transforming callback `runOnService` chains onto the promise:
`(value) => this._serializer ? value : this._serializer.deserialize(value,
returnType)`.  When a serializer object is present the raw value is returned;
when it is absent the `else` branch dereferences the null `_serializer` and
throws a `TypeError`. -/
def resultTransform (ser : Option Serializer) (returnType : JSType)
    (value : JSVal) : Except JSVal JSVal :=
  match ser with
  | some _ => Except.ok value
  | none => Except.error (JSVal.vStr "TypeError")

/-- The settlement the caller of `runOnService` observes on the returned
future: resolutions pass through `resultTransform` (a throw there becomes a
rejection of the chained promise); rejections propagate through `.then`
unchanged. -/
def callerOutcome (ser : Option Serializer) (returnType : JSType) :
    PromiseState → PromiseState
  | PromiseState.pending => PromiseState.pending
  | PromiseState.resolved v =>
    match resultTransform ser returnType v with
    | Except.ok w => PromiseState.resolved w
    | Except.error e => PromiseState.rejected e
  | PromiseState.rejected e => PromiseState.rejected e

/-- The diagnostic hook `promise.catch((err) => { console.log(err); ... })`:
the value handed to `console.log`, when the completer ends up rejected. -/
def catchLog : PromiseState → Option JSVal
  | PromiseState.rejected e => some e
  | _ => none

/-- A raw inbound payload (`{[key: string]: any}`): each of the three keys the
broker reads may be absent (`none`). -/
structure RawMessage where
  type? : Option JSVal
  id? : Option JSVal
  value? : Option JSVal
  deriving Repr, DecidableEq

/-- `MessageData._getValueIfPresent`: the value when the key is present,
otherwise `null`. -/
def getValueIfPresent (v : Option JSVal) : JSVal :=
  v.getD JSVal.vNull

/-- The parsed `MessageData` fields. -/
structure MessageData where
  type : JSVal
  id : JSVal
  value : JSVal
  deriving Repr, DecidableEq

/-- The `MessageData` constructor: `type` is read directly off the payload
(`data['type']`, yielding `undefined` when the key is absent), while `id` and
`value` go through `_getValueIfPresent` (yielding `null` when absent). -/
def MessageData.ofRaw (data : RawMessage) : MessageData :=
  { type := data.type?.getD JSVal.vUndefined,
    id := getValueIfPresent data.id?,
    value := getValueIfPresent data.value? }

/-- JavaScript `Map.has`/`get` key coercion: the `_pending` map was only ever
populated with string keys, so a non-string `id` matches nothing. -/
def keyOf : JSVal → Option String
  | JSVal.vStr s => some s
  | _ => none

/-- Settling a completer: resolving or rejecting an already-settled promise is
a no-op, and an out-of-range handle touches nothing. -/
def settle (cs : List PromiseState) (h : Nat) (s : PromiseState) :
    List PromiseState :=
  match cs.get? h with
  | some PromiseState.pending => cs.set h s
  | _ => cs

/-- `ClientMessageBroker_._handleMessage(message)`: parse the payload; on
`type === 'result' || type === 'error'` with an id matching a pending entry,
resolve (resp. reject) that completer with `data.value` and delete the entry;
otherwise do nothing. -/
def handleMessage (st : BrokerState) (msg : RawMessage) : BrokerState :=
  let data := MessageData.ofRaw msg
  if data.type = JSVal.vStr "result" ∨ data.type = JSVal.vStr "error" then
    match keyOf data.id with
    | some k =>
      match lookupKey k st.pendingTable with
      | some h =>
        { pendingTable := deleteKey k st.pendingTable,
          completers :=
            if data.type = JSVal.vStr "result" then
              settle st.completers h (PromiseState.resolved data.value)
            else
              settle st.completers h (PromiseState.rejected data.value) }
      | none => st
    | none => st
  else st

/-- Issuing a sequence of calls, all with non-null return types, on one broker
with no interleaved responses: returns the final state and the list of ids
attached to the emitted messages (a synchronous serialization throw aborts the
rest of the sequence). -/
def runSeq (ser : Option Serializer) :
    BrokerState → List (UiArguments × JSType × String) → BrokerState × List String
  | st, [] => (st, [])
  | st, (a, rt, t) :: rest =>
    match runOnService ser st a (some rt) t with
    | Except.ok res =>
      let next := runSeq ser res.state rest
      (next.1, res.message.id.getD "" :: next.2)
    | Except.error _ => (st, [])

/-- Numeric value of a decimal digit character (used only to prove `Nat.repr`
injective). -/
def digitVal (c : Char) : Nat := c.toNat - 48

/-! ## Lemmas about the association-list model of the pending `Map` -/

lemma lookupKey_deleteKey_self (k : String) :
    ∀ m : List (String × Nat), lookupKey k (deleteKey k m) = none := by
  intro m
  induction m with
  | nil => rfl
  | cons p rest ih =>
    obtain ⟨a, b⟩ := p
    by_cases hak : a = k
    · simpa [deleteKey, hak] using ih
    · simpa [deleteKey, hak, lookupKey] using ih

lemma lookupKey_eq_none_iff (k : String) :
    ∀ m : List (String × Nat), lookupKey k m = none ↔ k ∉ m.map Prod.fst := by
  intro m
  induction m with
  | nil => simp [lookupKey]
  | cons p rest ih =>
    obtain ⟨a, b⟩ := p
    by_cases hak : a = k
    · subst hak; simp [lookupKey]
    · simp only [lookupKey, if_neg hak, List.map_cons, List.mem_cons, not_or, ih]
      exact ⟨fun h => ⟨fun he => hak he.symm, h⟩, fun h => h.2⟩

lemma setKey_eq_append (k : String) (v : Nat) :
    ∀ m : List (String × Nat), lookupKey k m = none → setKey k v m = m ++ [(k, v)] := by
  intro m
  induction m with
  | nil => intro _; rfl
  | cons p rest ih =>
    obtain ⟨a, b⟩ := p
    intro hm
    by_cases hak : a = k
    · simp [lookupKey, hak] at hm
    · simp only [lookupKey, if_neg hak] at hm
      simp [setKey, hak, ih hm]

lemma get?_set_self :
    ∀ (l : List PromiseState) (i : Nat) (x : PromiseState),
      i < l.length → (l.set i x).get? i = some x := by
  intro l
  induction l with
  | nil => intro i x h; simp at h
  | cons a rest ih =>
    intro i x h
    cases i with
    | zero => rfl
    | succ n => simpa [List.set] using ih n x (by simpa using h)

lemma get?_lt :
    ∀ (l : List PromiseState) (i : Nat) (x : PromiseState),
      l.get? i = some x → i < l.length := by
  intro l
  induction l with
  | nil => intro i x h; simp at h
  | cons a rest ih =>
    intro i x h
    cases i with
    | zero => simp
    | succ n => simpa using ih n x (by simpa using h)

lemma settle_get (cs : List PromiseState) (h : Nat) (s : PromiseState)
    (hc : cs.get? h = some PromiseState.pending) :
    (settle cs h s).get? h = some s := by
  unfold settle
  rw [hc]
  exact get?_set_self cs h s (get?_lt cs h PromiseState.pending hc)

/-! ## Lemmas about `handleMessage` -/

/-- When the inbound message is a `result`/`error` whose id matches a pending
entry, `_handleMessage` settles that completer and deletes the entry. -/
lemma handleMessage_matched (st : BrokerState) (msg : RawMessage) (X : String)
    (h : Nat)
    (hT : (MessageData.ofRaw msg).type = JSVal.vStr "result" ∨
      (MessageData.ofRaw msg).type = JSVal.vStr "error")
    (hId : (MessageData.ofRaw msg).id = JSVal.vStr X)
    (hLk : lookupKey X st.pendingTable = some h) :
    handleMessage st msg =
      { pendingTable := deleteKey X st.pendingTable,
        completers :=
          if (MessageData.ofRaw msg).type = JSVal.vStr "result" then
            settle st.completers h
              (PromiseState.resolved (MessageData.ofRaw msg).value)
          else
            settle st.completers h
              (PromiseState.rejected (MessageData.ofRaw msg).value) } := by
  unfold handleMessage
  rw [if_pos hT, hId]
  simp only [keyOf, hLk]

/-- When the parsed id matches no pending entry (including a non-string or
absent id), `_handleMessage` leaves the whole state unchanged. -/
lemma handleMessage_unmatched (st : BrokerState) (msg : RawMessage)
    (hnone : ∀ k, keyOf (MessageData.ofRaw msg).id = some k →
      lookupKey k st.pendingTable = none) :
    handleMessage st msg = st := by
  unfold handleMessage
  by_cases hT : (MessageData.ofRaw msg).type = JSVal.vStr "result" ∨
      (MessageData.ofRaw msg).type = JSVal.vStr "error"
  · rw [if_pos hT]
    cases hk : keyOf (MessageData.ofRaw msg).id with
    | none => rfl
    | some k => simp [hnone k hk]
  · rw [if_neg hT]

/-- When the message type is neither `result` nor `error`, `_handleMessage`
leaves the whole state unchanged. -/
lemma handleMessage_badtype (st : BrokerState) (msg : RawMessage)
    (hT : ¬((MessageData.ofRaw msg).type = JSVal.vStr "result" ∨
      (MessageData.ofRaw msg).type = JSVal.vStr "error")) :
    handleMessage st msg = st := by
  unfold handleMessage
  rw [if_neg hT]

/-! ## Lemmas about `runOnService` -/

lemma encodeArg_some (s : Serializer) (a : FnArg) :
    encodeArg (some s) a =
      Except.ok (match a.type with
        | some t => s.serialize a.value t
        | none => a.value) := by
  cases ha : a.type <;> simp [encodeArg, ha]

lemma runOnService_none_eq (ser : Option Serializer) (st : BrokerState)
    (a : UiArguments) (time : String) :
    runOnService ser st a none time =
      (encodeArgs ser a.args).map (fun l =>
        { state := st,
          message := { method := a.method, args := l, id := none },
          promise := none }) := by
  unfold runOnService
  cases encodeArgs ser a.args <;> rfl

lemma runOnService_some_eq (ser : Option Serializer) (st : BrokerState)
    (a : UiArguments) (rt : JSType) (time : String) :
    runOnService ser st a (some rt) time =
      (encodeArgs ser a.args).map (fun l =>
        { state :=
            { pendingTable :=
                setKey (generateMessageId (st.pendingTable.map Prod.fst) a.method time)
                  st.completers.length st.pendingTable,
              completers := st.completers ++ [PromiseState.pending] },
          message :=
            { method := a.method, args := l,
              id := some (generateMessageId (st.pendingTable.map Prod.fst) a.method time) },
          promise := some st.completers.length }) := by
  unfold runOnService
  cases encodeArgs ser a.args <;> rfl

/-! ## Claim theorems (first batch) -/

/-- C1 (code bug): the result-decoding ternary in `runOnService` is inverted.
With a serializer configured (`deserialize` mapping `1` to `99` here), a
handled `{type: 'result', id: 'X', value: 1}` resolves the raw completer with
the raw wire value, and the caller-visible future is fulfilled with the raw
`1`, not `deserialize 1 returnType = 99` as the spec states; with no
serializer configured the callback throws a `TypeError` instead of passing the
value through unchanged. -/
theorem runOnService_result_decode_inverted :
    handleMessage ⟨[("X", 0)], [PromiseState.pending]⟩
        ⟨some (JSVal.vStr "result"), some (JSVal.vStr "X"), some (JSVal.vNum 1)⟩ =
      ⟨[], [PromiseState.resolved (JSVal.vNum 1)]⟩ ∧
    callerOutcome (some ⟨fun v _ => v, fun _ _ => JSVal.vNum 99⟩) 0
        (PromiseState.resolved (JSVal.vNum 1)) =
      PromiseState.resolved (JSVal.vNum 1) ∧
    Serializer.deserialize ⟨fun v _ => v, fun _ _ => JSVal.vNum 99⟩
        (JSVal.vNum 1) 0 = JSVal.vNum 99 ∧
    callerOutcome none 0 (PromiseState.resolved (JSVal.vNum 1)) =
      PromiseState.rejected (JSVal.vStr "TypeError") :=
  ⟨rfl, rfl, rfl, rfl⟩

/-- C3: once a result/error message carrying a pending id `X` has been
handled, `X` is gone from the pending table, and handling any second message
carrying the same id `X` changes nothing — neither the table nor any
completer. -/
theorem handleMessage_at_most_once (st : BrokerState) (msg msg2 : RawMessage)
    (X : String) (h : Nat)
    (hT : (MessageData.ofRaw msg).type = JSVal.vStr "result" ∨
      (MessageData.ofRaw msg).type = JSVal.vStr "error")
    (hId : (MessageData.ofRaw msg).id = JSVal.vStr X)
    (hLk : lookupKey X st.pendingTable = some h)
    (hId2 : (MessageData.ofRaw msg2).id = JSVal.vStr X) :
    lookupKey X (handleMessage st msg).pendingTable = none ∧
    handleMessage (handleMessage st msg) msg2 = handleMessage st msg := by
  have hm := handleMessage_matched st msg X h hT hId hLk
  have hdel : lookupKey X (handleMessage st msg).pendingTable = none := by
    rw [hm]
    exact lookupKey_deleteKey_self X st.pendingTable
  refine ⟨hdel, ?_⟩
  apply handleMessage_unmatched
  intro k hk
  rw [hId2] at hk
  simp only [keyOf, Option.some.injEq] at hk
  subst hk
  exact hdel

theorem handleMessage_at_most_once_witness :
    lookupKey "X" (handleMessage ⟨[("X", 0)], [PromiseState.pending]⟩
        ⟨some (JSVal.vStr "result"), some (JSVal.vStr "X"),
          some (JSVal.vNum 1)⟩).pendingTable = none ∧
    handleMessage (handleMessage ⟨[("X", 0)], [PromiseState.pending]⟩
        ⟨some (JSVal.vStr "result"), some (JSVal.vStr "X"), some (JSVal.vNum 1)⟩)
      ⟨some (JSVal.vStr "error"), some (JSVal.vStr "X"), some (JSVal.vNum 2)⟩ =
      handleMessage ⟨[("X", 0)], [PromiseState.pending]⟩
        ⟨some (JSVal.vStr "result"), some (JSVal.vStr "X"), some (JSVal.vNum 1)⟩ :=
  handleMessage_at_most_once ⟨[("X", 0)], [PromiseState.pending]⟩
    ⟨some (JSVal.vStr "result"), some (JSVal.vStr "X"), some (JSVal.vNum 1)⟩
    ⟨some (JSVal.vStr "error"), some (JSVal.vStr "X"), some (JSVal.vNum 2)⟩
    "X" 0 (Or.inl (by decide)) (by decide) (by decide) (by decide)

/-- C4: a call with `returnType = null` returns null, leaves the broker state
untouched (no pending entry), and emits exactly `{method, args}` with no `id`
key. -/
theorem runOnService_fire_and_forget (ser : Option Serializer)
    (st : BrokerState) (a : UiArguments) (time : String) (res : RunResult)
    (hres : runOnService ser st a none time = Except.ok res) :
    res.promise = none ∧ res.state = st ∧
      ∃ l, encodeArgs ser a.args = Except.ok l ∧
        res.message = { method := a.method, args := l, id := none } := by
  rw [runOnService_none_eq] at hres
  cases he : encodeArgs ser a.args with
  | error e => rw [he] at hres; simp [Except.map] at hres
  | ok l =>
    rw [he] at hres
    simp only [Except.map] at hres
    injection hres with h2
    subst h2
    exact ⟨rfl, rfl, l, rfl, rfl⟩

theorem runOnService_fire_and_forget_witness :
    runOnService (some ⟨fun v _ => v, fun v _ => v⟩) ⟨[], []⟩
        ⟨"foo", some [⟨JSVal.vNum 5, none⟩]⟩ none "7" =
      Except.ok ⟨⟨[], []⟩, ⟨"foo", [JSVal.vNum 5], none⟩, none⟩ ∧
    ((⟨⟨[], []⟩, ⟨"foo", [JSVal.vNum 5], none⟩, none⟩ : RunResult).promise = none ∧
      (⟨⟨[], []⟩, ⟨"foo", [JSVal.vNum 5], none⟩, none⟩ : RunResult).state = ⟨[], []⟩ ∧
      ∃ l, encodeArgs (some ⟨fun v _ => v, fun v _ => v⟩)
            (⟨"foo", some [⟨JSVal.vNum 5, none⟩]⟩ : UiArguments).args = Except.ok l ∧
          (⟨⟨[], []⟩, ⟨"foo", [JSVal.vNum 5], none⟩, none⟩ : RunResult).message =
            ⟨(⟨"foo", some [⟨JSVal.vNum 5, none⟩]⟩ : UiArguments).method, l, none⟩) :=
  ⟨rfl, runOnService_fire_and_forget (some ⟨fun v _ => v, fun v _ => v⟩) ⟨[], []⟩
    ⟨"foo", some [⟨JSVal.vNum 5, none⟩]⟩ "7"
    ⟨⟨[], []⟩, ⟨"foo", [JSVal.vNum 5], none⟩, none⟩ rfl⟩

/-- C5: the emitted args array is the pointwise image of the input entries, in
order: `serialize(value, type)` where a type tag is present, the raw value
where it is absent. -/
theorem encodeArgs_pointwise (s : Serializer) (l : List FnArg) :
    encodeArgs (some s) (some l) =
      Except.ok (l.map fun a =>
        match a.type with
        | some t => s.serialize a.value t
        | none => a.value) := by
  induction l with
  | nil => rfl
  | cons a rest ih =>
    simp only [encodeArgs] at ih
    simp [encodeArgs, encodeList, encodeArg_some, ih, Except.map]

/-- C6: an `error` message carrying a pending id rejects that completer with
the payload verbatim and removes the id from the table; the rejection passes
through the result-transforming `.then` unchanged for the caller, and the
`catch` hook logs exactly the payload. -/
theorem handleMessage_error_rejects (ser : Option Serializer) (rt : JSType)
    (st : BrokerState) (msg : RawMessage) (X : String) (h : Nat)
    (hT : (MessageData.ofRaw msg).type = JSVal.vStr "error")
    (hId : (MessageData.ofRaw msg).id = JSVal.vStr X)
    (hLk : lookupKey X st.pendingTable = some h)
    (hc : st.completers.get? h = some PromiseState.pending) :
    lookupKey X (handleMessage st msg).pendingTable = none ∧
    (handleMessage st msg).completers.get? h =
      some (PromiseState.rejected (MessageData.ofRaw msg).value) ∧
    callerOutcome ser rt (PromiseState.rejected (MessageData.ofRaw msg).value) =
      PromiseState.rejected (MessageData.ofRaw msg).value ∧
    catchLog (PromiseState.rejected (MessageData.ofRaw msg).value) =
      some (MessageData.ofRaw msg).value := by
  have hne : ¬(MessageData.ofRaw msg).type = JSVal.vStr "result" := by
    rw [hT]; decide
  have hm := handleMessage_matched st msg X h (Or.inr hT) hId hLk
  rw [hm]
  exact ⟨lookupKey_deleteKey_self X st.pendingTable,
    by simp only [if_neg hne]; exact settle_get st.completers h _ hc, rfl, rfl⟩

theorem handleMessage_error_rejects_witness :
    lookupKey "X" (handleMessage ⟨[("X", 0)], [PromiseState.pending]⟩
        ⟨some (JSVal.vStr "error"), some (JSVal.vStr "X"),
          some (JSVal.vStr "boom")⟩).pendingTable = none ∧
    (handleMessage ⟨[("X", 0)], [PromiseState.pending]⟩
        ⟨some (JSVal.vStr "error"), some (JSVal.vStr "X"),
          some (JSVal.vStr "boom")⟩).completers.get? 0 =
      some (PromiseState.rejected (MessageData.ofRaw
        ⟨some (JSVal.vStr "error"), some (JSVal.vStr "X"),
          some (JSVal.vStr "boom")⟩).value) ∧
    callerOutcome (some ⟨fun v _ => v, fun v _ => v⟩) 0
        (PromiseState.rejected (MessageData.ofRaw
          ⟨some (JSVal.vStr "error"), some (JSVal.vStr "X"),
            some (JSVal.vStr "boom")⟩).value) =
      PromiseState.rejected (MessageData.ofRaw
        ⟨some (JSVal.vStr "error"), some (JSVal.vStr "X"),
          some (JSVal.vStr "boom")⟩).value ∧
    catchLog (PromiseState.rejected (MessageData.ofRaw
        ⟨some (JSVal.vStr "error"), some (JSVal.vStr "X"),
          some (JSVal.vStr "boom")⟩).value) =
      some (MessageData.ofRaw ⟨some (JSVal.vStr "error"), some (JSVal.vStr "X"),
        some (JSVal.vStr "boom")⟩).value :=
  handleMessage_error_rejects (some ⟨fun v _ => v, fun v _ => v⟩) 0
    ⟨[("X", 0)], [PromiseState.pending]⟩
    ⟨some (JSVal.vStr "error"), some (JSVal.vStr "X"), some (JSVal.vStr "boom")⟩
    "X" 0 (by decide) (by decide) (by decide) (by decide)

/-- C7: a message whose type is neither `result` nor `error`, or whose id
(absent, non-string, or unknown) matches no pending entry, leaves the broker
state — pending table and all completers — exactly unchanged. -/
theorem handleMessage_ignores (st : BrokerState) (msg : RawMessage)
    (hyp : ¬((MessageData.ofRaw msg).type = JSVal.vStr "result" ∨
        (MessageData.ofRaw msg).type = JSVal.vStr "error") ∨
      (∀ k, keyOf (MessageData.ofRaw msg).id = some k →
        lookupKey k st.pendingTable = none)) :
    handleMessage st msg = st := by
  rcases hyp with hT | hid
  · exact handleMessage_badtype st msg hT
  · exact handleMessage_unmatched st msg hid

theorem handleMessage_ignores_witness :
    handleMessage ⟨[("X", 0)], [PromiseState.pending]⟩
        ⟨some (JSVal.vStr "ping"), some (JSVal.vStr "X"), none⟩ =
      ⟨[("X", 0)], [PromiseState.pending]⟩ ∧
    handleMessage ⟨[("X", 0)], [PromiseState.pending]⟩
        ⟨some (JSVal.vStr "result"), some (JSVal.vStr "nonexistent"),
          some (JSVal.vNum 7)⟩ =
      ⟨[("X", 0)], [PromiseState.pending]⟩ :=
  ⟨handleMessage_ignores ⟨[("X", 0)], [PromiseState.pending]⟩
      ⟨some (JSVal.vStr "ping"), some (JSVal.vStr "X"), none⟩
      (Or.inl (by decide)),
    handleMessage_ignores ⟨[("X", 0)], [PromiseState.pending]⟩
      ⟨some (JSVal.vStr "result"), some (JSVal.vStr "nonexistent"),
        some (JSVal.vNum 7)⟩
      (Or.inr (by decide))⟩

/-- C8 counterexample: on the payload with all three keys absent, the parsed
`type` field is `undefined` (read directly off the object), not `null` as the
claim states for all three fields. -/
theorem messageData_absent_type_not_null :
    ¬(MessageData.ofRaw ⟨none, none, none⟩).type = JSVal.vNull := by decide

/-- C8 (amended): parsing a raw payload never fails; `id` and `value` default
to `null` when their key is absent, while `type` — read directly, without
`_getValueIfPresent` — defaults to `undefined`. -/
theorem messageData_defaults (raw : RawMessage) :
    (raw.id? = none → (MessageData.ofRaw raw).id = JSVal.vNull) ∧
    (raw.value? = none → (MessageData.ofRaw raw).value = JSVal.vNull) ∧
    (raw.type? = none → (MessageData.ofRaw raw).type = JSVal.vUndefined) := by
  refine ⟨fun h => ?_, fun h => ?_, fun h => ?_⟩ <;>
    simp [MessageData.ofRaw, getValueIfPresent, h]

theorem messageData_defaults_witness :
    (MessageData.ofRaw ⟨none, none, none⟩).id = JSVal.vNull ∧
    (MessageData.ofRaw ⟨none, none, none⟩).value = JSVal.vNull ∧
    (MessageData.ofRaw ⟨none, none, none⟩).type = JSVal.vUndefined :=
  ⟨(messageData_defaults ⟨none, none, none⟩).1 rfl,
    (messageData_defaults ⟨none, none, none⟩).2.1 rfl,
    (messageData_defaults ⟨none, none, none⟩).2.2 rfl⟩

/-- C9: a `UiArguments` built without an args array makes `runOnService`
succeed (no throw) and emit an empty `args` array, whatever the serializer,
state, and return type. -/
theorem runOnService_no_args (ser : Option Serializer) (st : BrokerState)
    (method : String) (rt : Option JSType) (time : String) :
    ∃ res, runOnService ser st ⟨method, none⟩ rt time = Except.ok res ∧
      res.message.args = [] := by
  cases rt with
  | none => exact ⟨_, rfl, rfl⟩
  | some t => exact ⟨_, rfl, rfl⟩

/-! ## `Nat.repr` is injective

Needed to know that the candidate ids `name ++ time ++ repr k` are pairwise
distinct strings, which drives the pigeonhole argument behind the
id-generation loop's termination. -/

lemma toDigitsCore_append (b : Nat) :
    ∀ (fuel n : Nat) (ds : List Char),
      Nat.toDigitsCore b fuel n ds = Nat.toDigitsCore b fuel n [] ++ ds := by
  intro fuel
  induction fuel with
  | zero => intro n ds; simp [Nat.toDigitsCore]
  | succ f ih =>
    intro n ds
    simp only [Nat.toDigitsCore]
    by_cases hz : n / b = 0
    · simp [hz]
    · rw [if_neg hz, if_neg hz,
        ih (n / b) (Nat.digitChar (n % b) :: ds),
        ih (n / b) [Nat.digitChar (n % b)], List.append_assoc]
      rfl

lemma digitVal_digitChar : ∀ d : Nat, d < 10 → digitVal (Nat.digitChar d) = d := by
  decide

lemma decode_toDigitsCore :
    ∀ n fuel, n < fuel →
      List.foldl (fun a c => a * 10 + digitVal c) 0
        (Nat.toDigitsCore 10 fuel n []) = n := by
  intro n
  induction n using Nat.strong_induction_on with
  | _ n ih =>
    intro fuel hf
    cases fuel with
    | zero => omega
    | succ f =>
      simp only [Nat.toDigitsCore]
      by_cases hz : n / 10 = 0
      · have hn10 : n < 10 := by omega
        rw [if_pos hz]
        have hmod : n % 10 = n := Nat.mod_eq_of_lt hn10
        simp [hmod, digitVal_digitChar n hn10]
      · rw [if_neg hz,
          toDigitsCore_append 10 f (n / 10) [Nat.digitChar (n % 10)],
          List.foldl_append]
        have h1 : n / 10 < n := Nat.div_lt_self (by omega) (by norm_num)
        rw [ih (n / 10) h1 f (by omega)]
        simp [digitVal_digitChar (n % 10) (Nat.mod_lt n (by norm_num))]
        omega

lemma repr_injective : Function.Injective Nat.repr := by
  intro m n h
  have hm := decode_toDigitsCore m (m + 1) (Nat.lt_succ_self m)
  have hn := decode_toDigitsCore n (n + 1) (Nat.lt_succ_self n)
  have hd : Nat.toDigitsCore 10 (m + 1) m [] = Nat.toDigitsCore 10 (n + 1) n [] := by
    have hdata : (Nat.repr m).data = (Nat.repr n).data := by rw [h]
    simpa [Nat.repr, Nat.toDigits, List.asString] using hdata
  rw [hd, hn] at hm
  exact hm.symm

lemma appendRepr_injective (pre : String) :
    Function.Injective fun k : Nat => pre ++ Nat.repr k := by
  intro a b h
  apply repr_injective
  have hdata : (pre ++ Nat.repr a).data = (pre ++ Nat.repr b).data :=
    congrArg String.data h
  rw [String.data_append, String.data_append] at hdata
  exact String.ext (List.append_cancel_left hdata)

/-! ## Termination and freshness of the id-generation loop -/

/-- Among the candidate suffix counters `0..pending.length` at least one
composes to an id absent from the pending set. -/
lemma exists_fresh_id (pending : List String) (pre : String) :
    ∃ k, k ≤ pending.length ∧ pre ++ Nat.repr k ∉ pending := by
  by_contra hcon
  push_neg at hcon
  have hsub : (Finset.range (pending.length + 1)).image
      (fun k => pre ++ Nat.repr k) ⊆ pending.toFinset := by
    intro x hx
    simp only [Finset.mem_image, Finset.mem_range] at hx
    obtain ⟨k, hk, rfl⟩ := hx
    exact List.mem_toFinset.mpr (hcon k (by omega))
  have hcard := Finset.card_le_card hsub
  rw [Finset.card_image_of_injective _ (appendRepr_injective pre),
    Finset.card_range] at hcard
  have hlen := List.toFinset_card_le pending
  omega

/-- If some later counter composes to a fresh id within the remaining fuel,
the loop exits with an id absent from the pending set.  The state
`(pre ++ repr j, j + 1)` is exactly the loop state right after one execution
of the body. -/
lemma genLoop_some_of_fresh (pending : List String) (pre : String) :
    ∀ (fuel j : Nat),
      (∃ k, j ≤ k ∧ k - j < fuel ∧ pre ++ Nat.repr k ∉ pending) →
      ∃ id, genLoop pending pre fuel (pre ++ Nat.repr j) (j + 1) = some id ∧
        id ∉ pending := by
  intro fuel
  induction fuel with
  | zero =>
    intro j h
    obtain ⟨k, hjk, hk, _⟩ := h
    omega
  | succ f ih =>
    intro j h
    obtain ⟨k, hjk, hkf, hknot⟩ := h
    by_cases hmem : (pre ++ Nat.repr j) ∈ pending
    · rw [show genLoop pending pre (f + 1) (pre ++ Nat.repr j) (j + 1) =
          genLoop pending pre f (pre ++ Nat.repr (j + 1)) (j + 1 + 1) from by
        simp [genLoop, hmem]]
      have hk1 : j + 1 ≤ k := by
        rcases Nat.eq_or_lt_of_le hjk with rfl | hlt
        · exact absurd hmem hknot
        · omega
      exact ih (j + 1) ⟨k, hk1, by omega, hknot⟩
    · exact ⟨pre ++ Nat.repr j, by simp [genLoop, hmem], hmem⟩

/-- Full specification of `_generateMessageId`: with fuel
`pending.length + 2` the collision loop exits (never runs out of fuel) and
returns an id that is not in the pending set. -/
lemma generateMessageId_spec (pending : List String) (name time : String) :
    ∃ id, genLoop pending (name ++ time) (pending.length + 2)
        (name ++ time ++ Nat.repr 0) 0 = some id ∧
      id ∉ pending ∧ generateMessageId pending name time = id := by
  obtain ⟨k, hk, hkfresh⟩ := exists_fresh_id pending (name ++ time)
  by_cases hmem : name ++ time ++ Nat.repr 0 ∈ pending
  · have h0 : genLoop pending (name ++ time) (pending.length + 2)
        (name ++ time ++ Nat.repr 0) 0 =
        genLoop pending (name ++ time) (pending.length + 1)
          (name ++ time ++ Nat.repr 0) 1 := by
      simp [genLoop, hmem]
    obtain ⟨id, hid, hidnot⟩ := genLoop_some_of_fresh pending (name ++ time)
      (pending.length + 1) 0 ⟨k, Nat.zero_le k, by omega, hkfresh⟩
    refine ⟨id, ?_, hidnot, ?_⟩
    · rw [h0]; exact hid
    · unfold generateMessageId
      rw [h0, hid]
      rfl
  · refine ⟨name ++ time ++ Nat.repr 0, by simp [genLoop, hmem], hmem, ?_⟩
    unfold generateMessageId
    simp [genLoop, hmem]

lemma generateMessageId_not_mem (pending : List String) (name time : String) :
    generateMessageId pending name time ∉ pending := by
  obtain ⟨id, _, hnot, heq⟩ := generateMessageId_spec pending name time
  rw [heq]
  exact hnot

/-! ## Distinctness of ids across a sequence of calls -/

/-- A successful call with a non-null return type attaches an id that is fresh
for the current pending table and appends exactly that entry. -/
lemma runOnService_ok_of_some (ser : Option Serializer) (st : BrokerState)
    (a : UiArguments) (rt : JSType) (t : String) (res : RunResult)
    (h : runOnService ser st a (some rt) t = Except.ok res) :
    ∃ i, res.message.id = some i ∧
      i ∉ st.pendingTable.map Prod.fst ∧
      res.state.pendingTable = st.pendingTable ++ [(i, st.completers.length)] := by
  rw [runOnService_some_eq] at h
  cases he : encodeArgs ser a.args with
  | error e => rw [he] at h; simp [Except.map] at h
  | ok l =>
    rw [he] at h
    simp only [Except.map] at h
    injection h with h2
    subst h2
    refine ⟨generateMessageId (st.pendingTable.map Prod.fst) a.method t, rfl,
      generateMessageId_not_mem _ _ _, ?_⟩
    exact setKey_eq_append _ _ _
      ((lookupKey_eq_none_iff _ _).mpr (generateMessageId_not_mem _ _ _))

/-- Ids already in the pending table are never handed out again during a
sequence of calls. -/
lemma runSeq_avoid (ser : Option Serializer) :
    ∀ (calls : List (UiArguments × JSType × String)) (st : BrokerState)
      (x : String),
      x ∈ st.pendingTable.map Prod.fst → x ∉ (runSeq ser st calls).2 := by
  intro calls
  induction calls with
  | nil => intro st x _; simp [runSeq]
  | cons c rest ih =>
    intro st x hx
    obtain ⟨a, rt, t⟩ := c
    simp only [runSeq]
    cases hr : runOnService ser st a (some rt) t with
    | error e => simp
    | ok res =>
      obtain ⟨i, hi, hnot, happ⟩ := runOnService_ok_of_some ser st a rt t res hr
      simp only [hi, Option.getD_some]
      intro hmem
      rcases List.mem_cons.mp hmem with rfl | hmem2
      · exact hnot hx
      · have hx2 : x ∈ res.state.pendingTable.map Prod.fst := by
          rw [happ]; simp [hx]
        exact ih res.state x hx2 hmem2

lemma runSeq_nodup_ids (ser : Option Serializer) :
    ∀ (calls : List (UiArguments × JSType × String)) (st : BrokerState),
      ((runSeq ser st calls).2).Nodup := by
  intro calls
  induction calls with
  | nil => intro st; simp [runSeq]
  | cons c rest ih =>
    intro st
    obtain ⟨a, rt, t⟩ := c
    simp only [runSeq]
    cases hr : runOnService ser st a (some rt) t with
    | error e => simp
    | ok res =>
      obtain ⟨i, hi, hnot, happ⟩ := runOnService_ok_of_some ser st a rt t res hr
      simp only [hi, Option.getD_some]
      rw [List.nodup_cons]
      refine ⟨?_, ih res.state⟩
      apply runSeq_avoid ser rest res.state i
      rw [happ]
      simp

lemma runSeq_keys_nodup (ser : Option Serializer) :
    ∀ (calls : List (UiArguments × JSType × String)) (st : BrokerState),
      (st.pendingTable.map Prod.fst).Nodup →
      (((runSeq ser st calls).1).pendingTable.map Prod.fst).Nodup := by
  intro calls
  induction calls with
  | nil => intro st h; simpa [runSeq] using h
  | cons c rest ih =>
    intro st h
    obtain ⟨a, rt, t⟩ := c
    simp only [runSeq]
    cases hr : runOnService ser st a (some rt) t with
    | error e => simpa using h
    | ok res =>
      obtain ⟨i, _, hnot, happ⟩ := runOnService_ok_of_some ser st a rt t res hr
      apply ih res.state
      rw [happ, List.map_append, List.nodup_append]
      refine ⟨h, List.nodup_singleton i, ?_⟩
      intro y hy hyi
      simp only [List.map_cons, List.map_nil, List.mem_singleton] at hyi
      subst hyi
      exact hnot hy

/-- C2: every sequence of calls issued with non-null return types on one
broker before any response arrives receives pairwise-distinct ids, and the
pending table's keys stay duplicate-free (each generated id is checked against
the table until absent, and inserted before the next call). -/
theorem runSeq_ids_nodup (s : Serializer) (st : BrokerState)
    (calls : List (UiArguments × JSType × String)) :
    ((runSeq (some s) st calls).2).Nodup ∧
    ((st.pendingTable.map Prod.fst).Nodup →
      (((runSeq (some s) st calls).1).pendingTable.map Prod.fst).Nodup) :=
  ⟨runSeq_nodup_ids (some s) calls st,
    fun h => runSeq_keys_nodup (some s) calls st h⟩

theorem runSeq_ids_nodup_witness :
    (((⟨[], []⟩ : BrokerState).pendingTable.map Prod.fst).Nodup) ∧
    ((runSeq (some ⟨fun v _ => v, fun v _ => v⟩) ⟨[], []⟩
        [(⟨"a", none⟩, 0, "7"), (⟨"a", none⟩, 0, "7"),
          (⟨"a", none⟩, 0, "7")]).2).Nodup ∧
    (((runSeq (some ⟨fun v _ => v, fun v _ => v⟩) ⟨[], []⟩
        [(⟨"a", none⟩, 0, "7"), (⟨"a", none⟩, 0, "7"),
          (⟨"a", none⟩, 0, "7")]).1).pendingTable.map Prod.fst).Nodup :=
  ⟨by decide,
    (runSeq_ids_nodup ⟨fun v _ => v, fun v _ => v⟩ ⟨[], []⟩
      [(⟨"a", none⟩, 0, "7"), (⟨"a", none⟩, 0, "7"), (⟨"a", none⟩, 0, "7")]).1,
    (runSeq_ids_nodup ⟨fun v _ => v, fun v _ => v⟩ ⟨[], []⟩
      [(⟨"a", none⟩, 0, "7"), (⟨"a", none⟩, 0, "7"), (⟨"a", none⟩, 0, "7")]).2
      (by decide)⟩

/-- C10: for every finite pending set and every seed, the id-generation
collision loop terminates — fuel `pending.length + 2` (one wasted first pass
plus the pigeonhole bound) is enough for the loop to exit with an id absent
from the pending set, and `generateMessageId` returns exactly that id. -/
theorem generateMessageId_terminates (pending : List String)
    (name time : String) :
    ∃ id, genLoop pending (name ++ time) (pending.length + 2)
        (name ++ time ++ Nat.repr 0) 0 = some id ∧
      id ∉ pending ∧ generateMessageId pending name time = id :=
  generateMessageId_spec pending name time
